import Mathlib

/-!
Verification development for the EGFR/ALK pathology-report vectorizer
(`src/utils/vectorizer.py`).  The text-rewriting pipeline of the source is
embedded shallowly: each compiled regular expression of the source is
translated into an executable matcher over `List Char`, each pipeline stage
of the `Vectorizer` class becomes a state transformer on a `Vectorizer`
structure, and `make_vector` composes the stages in the order of the source.
The three pattern collections are loaded from JSON data files that are not
part of the source tree, so the pattern library is a parameter of the model;
a concrete instantiation modelled from the spec is provided for evaluation.
-/

namespace EgfrAlk

/-! ### Character classes

The working text is ASCII-only after `_get_text` (code points at and above
128 are replaced by a space), so the Python regex classes are modelled with
their ASCII semantics. -/

/-- Python regex word character `\w` restricted to ASCII: letters, digits and
the underscore. -/
def isWordChar (c : Char) : Bool :=
  c.isAlpha || c.isDigit || c = '_'

/-- Python regex whitespace `\s` restricted to ASCII. -/
def isSpaceChar (c : Char) : Bool :=
  c = ' ' || c = '\t' || c = '\n' || c = '\r' || c = Char.ofNat 11 || c = Char.ofNat 12

/-- Uppercase ASCII letter, the class `[A-Z]`. -/
def isUpperAZ (c : Char) : Bool :=
  'A' ≤ c && c ≤ 'Z'

/-- Decimal digit, the classes `[\d]` and `[0-9]`. -/
def isDigitChar (c : Char) : Bool :=
  c.isDigit

/-! ### Generic leftmost non-overlapping global substitution

`gsub` models `re.sub` (and `str.replace`) for the matchers below: the text
is scanned left to right, at every position the matcher is tried, a match is
replaced by `repl` and scanning resumes after the match.  A matcher takes the
suffix starting at the current position and returns the remainder after the
match when it fires there.  Fuel is the length of the text plus one; every
step either consumes a match of positive length or advances by one
character, so the fuel is never exhausted on the inputs used. -/

def gsub (m : List Char → Option (List Char)) (repl : List Char) :
    Nat → List Char → List Char
  | 0, s => s
  | _ + 1, [] => []
  | fuel + 1, c :: rest =>
    match m (c :: rest) with
    | some r =>
      if r.length < (c :: rest).length then repl ++ gsub m repl fuel r
      else c :: gsub m repl fuel rest
    | none => c :: gsub m repl fuel rest

/-- Global substitution lifted to `String`. -/
def gsubStr (m : List Char → Option (List Char)) (repl : String) (s : String) :
    String :=
  ⟨gsub m repl.data (s.data.length + 1) s.data⟩

/-- Consume the literal `lit` from the front of `s`, returning the remainder. -/
def consumeLit : List Char → List Char → Option (List Char)
  | [], s => some s
  | _ :: _, [] => none
  | p :: ps, c :: cs => if p = c then consumeLit ps cs else none

/-- Matcher for a non-empty literal (the pattern obtained by escaping a
matched accession in `_other_accession`, and the `<newline>` marker of
`_get_text`): fires when the literal heads the suffix. -/
def matchLit (lit : List Char) (s : List Char) : Option (List Char) :=
  if lit.isEmpty then none else consumeLit lit s

/-! ### The anchored pattern matchers of `_compile_patterns`

Test and keyword patterns are compiled as `[\W\^](fragment)[\W$]`.  Inside a
character class `^` and `$` are literal characters, and both are non-word
characters, so each cushion is exactly one non-word character which is part
of the match. -/

/-- Matcher for `[\W\^](lit)[\W$]`: one non-word character, the fragment
literal, one non-word character; the whole match (cushions included) is
consumed. -/
def matchCushion (lit : List Char) : List Char → Option (List Char)
  | [] => none
  | c :: rest =>
    if isWordChar c then none
    else
      match consumeLit lit rest with
      | none => none
      | some r =>
        match r with
        | [] => none
        | d :: r2 => if isWordChar d then none else some r2

/-- The truncated positive-assertion pattern of `_positive_test`:
`[\W\^](lit)[\s]*[\+]` (the five-character post cushion `[\W$]` of the
compiled pattern is stripped and `[\s]*[\+]` appended).  Returns whether the
pattern matches at the head of the suffix. -/
def posAt (lit : List Char) (s : List Char) : Bool :=
  match s with
  | [] => false
  | c :: rest =>
    if isWordChar c then false
    else
      match consumeLit lit rest with
      | none => false
      | some r =>
        match r.dropWhile (fun d => isSpaceChar d) with
        | [] => false
        | d :: _ => d = '+'

/-- `re.search` of the truncated positive pattern: does it match anywhere. -/
def posSearch (lit : List Char) : List Char → Bool
  | [] => false
  | c :: rest => posAt lit (c :: rest) || posSearch lit rest

/-! ### The substitution table of `_compile_substitutions` -/

/-- The ten placeholder labels whose coordinated duplicates are collapsed by
the first family of substitution rules, in table order. -/
def replacements : List String :=
  ["OTHER_TEST", "PUBLICATION", "TEST_INSTANCE", "IHC", "PATHOLOGIST",
   "BLOCK_ACC", "SPECIFIC_MUT", "MUT_ANALYSIS", "FISH", "AUTHOR"]

/-- The bare connector class `[,.\(\):\-;andor ]` (rule 10 is written with
this literal class). -/
def isConnChar (c : Char) : Bool :=
  c = ',' || c = '.' || c = '(' || c = ')' || c = ':' || c = '-' || c = ';' ||
  c = 'a' || c = 'n' || c = 'd' || c = 'o' || c = 'r' || c = ' '

/-- The connector class of a collapse rule.  The source builds each rule
with `'{}[,.\(\):\-;andor{} ]{{1,}}{}'.format(*[replacement] * 3)`, so the
label itself is interpolated INTO the character class: the class contains
the connector characters plus every character of the label. -/
def connCharFor (label : List Char) (c : Char) : Bool :=
  isConnChar c || label.contains c

/-- Backtracking tail of a collapse match: try the greedy connector-run
length first, giving back one character at a time (never below one, for the
`{1,}` quantifier), until the text after the run starts with the label. -/
def collapseTail (label : List Char) (r : List Char) : Nat → Option (List Char)
  | 0 => none
  | k + 1 =>
    match consumeLit label (r.drop (k + 1)) with
    | some rest => some rest
    | none => collapseTail label r k

/-- Matcher for `LABEL[,.\(\):\-;andorLABEL ]{1,}LABEL`.  Because the class
contains the label's own characters, the greedy run can swallow whole
intermediate labels, so one match can collapse a chain such as
`OTHER_TEST or OTHER_TEST or OTHER_TEST`; the engine's backtracking is
modelled by trying run lengths from the maximum downwards. -/
def matchCollapse (label : List Char) (s : List Char) : Option (List Char) :=
  match consumeLit label s with
  | none => none
  | some r => collapseTail label r ((r.takeWhile (connCharFor label)).length)

/-- Matcher for `TEST_INSTANCE[,.\(\):\-;andor ]{1,}OTHER_TEST` (rule 10 of
the table, written with the literal connector class — no label is
interpolated here; replaced by a bare `TEST_INSTANCE`).  The class has no
uppercase letters, so `OTHER_TEST` can only start at the end of the maximal
connector run and the greedy run needs no backtracking. -/
def matchTIOT (s : List Char) : Option (List Char) :=
  match consumeLit "TEST_INSTANCE".data s with
  | none => none
  | some r =>
    let run := r.takeWhile isConnChar
    if run.isEmpty then none
    else consumeLit "OTHER_TEST".data (r.dropWhile isConnChar)

/-- One date separator of the class `[\-\\\/]`. -/
def isDateSep (c : Char) : Bool :=
  c = '-' || c = Char.ofNat 92 || c = '/'

/-- Matcher for the date rule `[0-9]{2}[\-\\\/][0-9]{2}[\-\\\/][0-9]{2,5}`:
two digits, a separator, two digits, a separator, then greedily two to five
digits (no backtracking is needed since nothing follows the last block). -/
def matchDate (s : List Char) : Option (List Char) :=
  match s with
  | d1 :: d2 :: s1 :: d3 :: d4 :: rest =>
    if isDigitChar d1 && isDigitChar d2 && isDateSep s1 &&
        isDigitChar d3 && isDigitChar d4 then
      match rest with
      | s2 :: rest2 =>
        if isDateSep s2 then
          let run := (rest2.takeWhile isDigitChar).take 5
          if run.length < 2 then none else some (rest2.drop run.length)
        else none
      | [] => none
    else none
  | _ => none

/-- Matcher for the specimen-label rule `($|\s)[A-H][\)]?[.]`.  Without
`re.MULTILINE` the `$` alternative matches only at the very end of the text
(or just before a final newline), where no `[A-H]` character can follow, so
only the `\s` alternative can contribute to a match. -/
def matchSpecimen (s : List Char) : Option (List Char) :=
  match s with
  | c :: l :: rest =>
    if isSpaceChar c && 'A' ≤ l && l ≤ 'H' then
      match rest with
      | ')' :: '.' :: rest2 => some rest2
      | '.' :: rest2 => some rest2
      | _ => none
    else none
  | _ => none

/-- The stray-character class `[\"\(\\\)\-\/\']` (rule 13, replaced by a
space). -/
def isStrayChar (c : Char) : Bool :=
  c = Char.ofNat 34 || c = '(' || c = Char.ofNat 92 || c = ')' || c = '-' ||
  c = '/' || c = Char.ofNat 39

/-- The sentence-punctuation class `[.,;:\?]` (rule 14, replaced by
a spaced `PUNCTUATION`). -/
def isPunctChar (c : Char) : Bool :=
  c = '.' || c = ',' || c = ';' || c = ':' || c = '?'

/-- The bracket class `[\[\]]` (rule 15, replaced by a space). -/
def isBracketChar (c : Char) : Bool :=
  c = '[' || c = ']'

/-- Matcher for a one-character class. -/
def matchClass (p : Char → Bool) : List Char → Option (List Char)
  | [] => none
  | c :: rest => if p c then some rest else none

/-! ### The stop-word regex of `_stop_list`

`[\s\^](TO|THE|FOR|A|AN|AS|THIS|THAT|THESE|THEY|IN|OF|ON|OR|BY)( THE|A|AN)?[\s\$]`
with `^` and `$` literal inside their classes.  Alternatives are tried in
source order, the optional group greedily (present first), backtracking
through both until the final class matches. -/

/-- The stop words, in the order of the alternation. -/
def stopWords : List String :=
  ["TO", "THE", "FOR", "A", "AN", "AS", "THIS", "THAT", "THESE",
   "THEY", "IN", "OF", "ON", "OR", "BY"]

/-- The optional tail group `( THE|A|AN)?`: its alternatives in order,
followed by the empty (absent) choice. -/
def stopTails : List String :=
  [" THE", "A", "AN", ""]

/-- Try the tail alternatives in order after a matched stop word; succeed on
the first one followed by a `[\s\$]` character. -/
def stopTailMatch (r : List Char) : List (String) → Option (List Char)
  | [] => none
  | t :: ts =>
    match consumeLit t.data r with
    | some (d :: r2) =>
      if isSpaceChar d || d = '$' then some r2 else stopTailMatch r ts
    | _ => stopTailMatch r ts

/-- Try the stop words in order at the position after the leading class. -/
def stopWordMatch (r : List Char) : List (String) → Option (List Char)
  | [] => none
  | w :: ws =>
    match consumeLit w.data r with
    | some rw =>
      match stopTailMatch rw stopTails with
      | some r2 => some r2
      | none => stopWordMatch r ws
    | none => stopWordMatch r ws

/-- Matcher for the full stop-word pattern at the head of the suffix. -/
def matchStop (s : List Char) : Option (List Char) :=
  match s with
  | [] => none
  | c :: rest =>
    if isSpaceChar c || c = '^' then stopWordMatch rest stopWords else none

/-- One pass of the stop-word removal: `re.sub(stop_list, ' ', text)`. -/
def stopSub (s : String) : String :=
  gsubStr matchStop " " s

/-- `str.upper()` on the ASCII-only working buffer. -/
def upperChar (c : Char) : Char :=
  if 'a' ≤ c && c ≤ 'z' then Char.ofNat (c.toNat - 32) else c

/-- `str.upper()` lifted to the text. -/
def upperStr (s : String) : String :=
  ⟨s.data.map upperChar⟩

/-! ### The accession matcher of `_other_accession`

`[\W]([\(]?[A-Z]{1,2}[\- ]?[\d]{2,4}[\- ]{1,3}[\d]{2,8}[\)]?)[\W]`.
Each quantified component is enumerated as an ordered candidate list
(greedy choice first); candidates are combined left to right with later
components varying fastest, which is exactly the engine's backtracking
order, and the first combination whose trailing character is non-word
wins. -/

/-- One `[\- ]` character. -/
def isDashSpace (c : Char) : Bool :=
  c = '-' || c = ' '

/-- Candidates for an optional single character, greedy first. -/
def optCands (p : Char → Bool) (s : List Char) : List (Nat × List Char) :=
  match s with
  | c :: rest => if p c then [(1, rest), (0, s)] else [(0, s)]
  | [] => [(0, s)]

/-- Candidates for `{lo,hi}` repetitions of a one-character class, greedy
first: counts from the maximal available (capped at `hi`) down to `lo`. -/
def repCands (p : Char → Bool) (lo hi : Nat) (s : List Char) :
    List (Nat × List Char) :=
  let avail := min ((s.takeWhile p).length) hi
  (List.range (avail + 1)).reverse.filterMap fun k =>
    if lo ≤ k then some (k, s.drop k) else none

/-- All candidate parses of the accession capture group, in engine order.
Each candidate is the group length together with the remainder. -/
def accGroupCands (s : List Char) : List (Nat × List Char) :=
  (optCands (fun c => c = '(') s).flatMap fun p1 =>
    (repCands isUpperAZ 1 2 p1.2).flatMap fun lt =>
      (optCands isDashSpace lt.2).flatMap fun o1 =>
        (repCands isDigitChar 2 4 o1.2).flatMap fun d1 =>
          (repCands isDashSpace 1 3 d1.2).flatMap fun sep =>
            (repCands isDigitChar 2 8 sep.2).flatMap fun d2 =>
              (optCands (fun c => c = ')') d2.2).map fun p2 =>
                (p1.1 + lt.1 + o1.1 + d1.1 + sep.1 + d2.1 + p2.1, p2.2)

/-- Match the full accession pattern at the head of the suffix: a non-word
character, the capture group, a non-word character.  Returns the capture
group (`match.group(1)`) and the remainder after the whole match. -/
def matchAcc (s : List Char) : Option (List Char × List Char) :=
  match s with
  | [] => none
  | c0 :: r0 =>
    if isWordChar c0 then none
    else
      ((accGroupCands r0).filterMap fun gr =>
        match gr.2 with
        | [] => none
        | d :: r2 => if isWordChar d then none else some (r0.take gr.1, r2)).head?

/-- `finditer` of the accession pattern: scan left to right, collect the
capture groups of non-overlapping matches, resuming after each match. -/
def accGroupsAux : Nat → List Char → List (List Char)
  | 0, _ => []
  | _ + 1, [] => []
  | fuel + 1, c :: rest =>
    match matchAcc (c :: rest) with
    | some (g, r) =>
      if r.length < (c :: rest).length then g :: accGroupsAux fuel r
      else accGroupsAux fuel rest
    | none => accGroupsAux fuel rest

/-- The capture groups of all accession matches in the text, in order. -/
def accMatchGroups (s : String) : List String :=
  (accGroupsAux (s.data.length + 1) s.data).map fun g => ⟨g⟩

/-- `re.sub(r'[()\- ]', '', ...)`: normalization of a matched accession. -/
def stripAccChars (s : String) : String :=
  ⟨s.data.filter fun c => !(c = '(' || c = ')' || c = '-' || c = ' ')⟩

/-- `re.sub(r'[\- ]', '', accession)`: normalization of the report's own
accession at the start of `make_vector`. -/
def stripDashSpace (s : String) : String :=
  ⟨s.data.filter fun c => !(c = '-' || c = ' ')⟩

/-- The replacement chosen for one matched accession: ` THIS_ACC_NUM ` when
its normalization equals the report's normalized accession, else
` OTHER_ACC_NUM `. -/
def accLabel (accession g : String) : String :=
  if stripAccChars g = accession then " THIS_ACC_NUM " else " OTHER_ACC_NUM "

/-- The text rewriting of `_other_accession`: for each capture group of the
original text in order, replace every occurrence of its literal (with
parentheses escaped, so a plain string replacement) by its chosen
replacement. -/
def accSubstitute (accession : String) (text : String) : String :=
  (accMatchGroups text).foldl
    (fun t g => gsubStr (matchLit g.data) (accLabel accession g) t)
    text

/-! ### Tokenization and counting -/

/-- `str.split()` of Python: split on maximal whitespace runs, dropping
empty tokens (this also subsumes the preceding `strip()`). -/
def splitWsAux : List Char → List Char → List String
  | [], acc => if acc.isEmpty then [] else [⟨acc.reverse⟩]
  | c :: rest, acc =>
    if isSpaceChar c then
      if acc.isEmpty then splitWsAux rest []
      else (⟨acc.reverse⟩ : String) :: splitWsAux rest []
    else splitWsAux rest (c :: acc)

/-- Tokenize the working text as `self.text.strip().split()` does. -/
def splitWs (s : String) : List String :=
  splitWsAux s.data []

/-- `str.count` for a non-empty pattern: non-overlapping occurrences,
counted left to right. -/
def countSubAux (pat : List Char) : Nat → List Char → Nat
  | 0, _ => 0
  | _ + 1, [] => 0
  | fuel + 1, c :: rest =>
    match consumeLit pat (c :: rest) with
    | some r =>
      if pat.isEmpty then 0
      else if r.length < (c :: rest).length then 1 + countSubAux pat fuel r
      else 0
    | none => countSubAux pat fuel rest

/-- `text.count(pat)` for the non-empty patterns used by the source. -/
def countSubStr (s pat : String) : Nat :=
  countSubAux pat.data (s.data.length + 1) s.data

/-! ### `_get_text` -/

/-- Replace non-ASCII characters (code point 128 and above) by a space. -/
def asciiClean (l : List Char) : List Char :=
  l.map fun c => if 128 ≤ c.toNat then ' ' else c

/-- `re.sub(r' +', ' ', ...)`: collapse runs of space characters (spaces
only, not general whitespace) to a single space. -/
def collapseSpaces : Nat → List Char → List Char
  | 0, s => s
  | _ + 1, [] => []
  | fuel + 1, c :: rest =>
    if c = ' ' then ' ' :: collapseSpaces fuel (rest.dropWhile fun d => d = ' ')
    else c :: collapseSpaces fuel rest

/-- `_get_text`: ASCII-only projection, space collapsing (performed twice in
the source), then translation of the literal `<newline>` marker to a real
newline. -/
def get_text (t : String) : String :=
  let a := asciiClean t.data
  let b := collapseSpaces (a.length + 1) a
  let c := collapseSpaces (b.length + 1) b
  ⟨gsub (matchLit "<newline>".data) "\n".data (c.length + 1) c⟩

/-! ### `_get_window`, `_add_section` and `_ngrams` -/

/-- The window-breaking placeholder tokens of `_get_window`. -/
def isBoundaryTok (t : String) : Bool :=
  t = "_SECTION_" || t = "PUNCTUATION" || t = "SPECIMEN_LABEL" || t = "OTHER_TEST"

/-- Python `max` over a non-empty list, given as head and tail (`max` of an
empty list raises `ValueError` in the source, so no empty case exists). -/
def pyMaxNat (x : Nat) (xs : List Nat) : Nat :=
  xs.foldl max x

/-- Python `min` over a non-empty list, given as head and tail. -/
def pyMinNat (x : Nat) (xs : List Nat) : Nat :=
  xs.foldl min x

/-- The break positions of `_get_window`: positions of boundary tokens
inside the candidate window `tokens[max(index-10,0):min(len,index+10)]`
(window position `b` holds `tokens[ws+b]`). -/
def winBreaks (tokens : List String) (index : Nat) : List Nat :=
  (List.range (min tokens.length (index + 10) - (index - 10))).filter
    fun b => isBoundaryTok (tokens.getD ((index - 10) + b) "")

/-- The start candidates `[i+1 for i in breaks+[0] if i < len(window)/2]`.
The source is Python 2, so `len(window)/2` is integer floor division. -/
def startCands (tokens : List String) (index : Nat) : List Nat :=
  ((winBreaks tokens index ++ [0]).filter
    fun b => b < (min tokens.length (index + 10) - (index - 10)) / 2).map (· + 1)

/-- The end candidates `[i for i in breaks+[L] if i > len(window)/2]` (the
sentinel `0` of the start computation is overwritten with the window
length before the end is computed). -/
def endCands (tokens : List String) (index : Nat) : List Nat :=
  (winBreaks tokens index ++ [min tokens.length (index + 10) - (index - 10)]).filter
    fun b => (min tokens.length (index + 10) - (index - 10)) / 2 < b

/-- `_get_window`: `start = window_start + max(startCands)` and
`end = window_start + min(endCands)`.  When a candidate list is empty the
source raises `ValueError` (`max()`/`min()` of an empty sequence) and the
call does not return, modelled as `none`; this happens exactly for a
single-token candidate window, where the floor midpoint is 0 and even the
sentinel start candidate fails its filter. -/
def get_window (tokens : List String) (index : Nat) : Option (Nat × Nat) :=
  match startCands tokens index, endCands tokens index with
  | s :: ss, e :: es =>
    some ((index - 10) + pyMaxNat s ss, (index - 10) + pyMinNat e es)
  | _, _ => none

/-- Backward scan of `_add_section`: walk `tokens[:index]` in reverse,
remembering the previously visited token; on the first `_SECTION_` emit
`SECTION=` followed by that token (the token to the right of the section
placeholder). -/
def add_section_scan : List String → String → List String
  | [], _ => []
  | c :: rest, prev =>
    if c = "_SECTION_" then ["SECTION=" ++ prev] else add_section_scan rest c

/-- The section feature of `_add_section` for the anchor at `index`. -/
def add_section_feats (tokens : List String) (index : Nat) : List String :=
  add_section_scan (tokens.take index).reverse ""

/-- Python list indexing: a negative index wraps around the end of the list. -/
def pyIdx (tokens : List String) (v : Int) : Nat :=
  if 0 ≤ v then v.toNat else tokens.length - (-v).toNat

/-- `tokens[v]` with Python index semantics (out-of-range is junk `""`;
every reachable access of the source is in range). -/
def pyGet (tokens : List String) (v : Int) : String :=
  tokens.getD (pyIdx tokens v) ""

/-- `range a b` of Python as a list. -/
def natRange (a b : Nat) : List Nat :=
  (List.range (b - a)).map (a + ·)

/-- `reversed(range(a, b))` of Python as a list. -/
def descRange (a b : Nat) : List Nat :=
  (List.range (b - a)).map fun d => b - 1 - d

/-- The pre-window block of `_ngrams`: for `i` from `index-1` down to
`start`, the unigram `pre_window=tokens[i]` and, for offsets 1, 2, 3 guarded
by `index - j > start` (the guard of the source tests `index`, not `i`), the
skip-gram `pre_window=tokens[i-j]_tokens[i]` with Python index semantics
(the integer guard `index - j > start` is written as `start + j < index`,
which is equivalent over the integers). -/
def pre_block (tokens : List String) (index start : Nat) : List String :=
  (descRange start index).flatMap fun i =>
    ("pre_window=" ++ tokens.getD i "") ::
      (([1, 2, 3] : List Nat).filterMap fun j =>
        if start + j < index then
          some ("pre_window=" ++ pyGet tokens ((i : Int) - (j : Int)) ++ "_" ++ tokens.getD i "")
        else none)

/-- The post-window block of `_ngrams`: for `i` from `index+1` up to
`min(len, end)` exclusive, the unigram `post_window=tokens[i]` and, for
offsets 1, 2, 3 guarded by `i < end - j` (written `i + j < e`, equivalent
over the integers), the skip-gram `post_window=tokens[i]_tokens[i+j]`. -/
def post_block (tokens : List String) (index e : Nat) : List String :=
  (natRange (index + 1) (min tokens.length e)).flatMap fun i =>
    ("post_window=" ++ tokens.getD i "") ::
      (([1, 2, 3] : List Nat).filterMap fun j =>
        if i + j < e then
          some ("post_window=" ++ tokens.getD i "" ++ "_" ++ tokens.getD (i + j) "")
        else none)

/-- The features emitted by `_ngrams` for one anchor occurrence at `index`
whose window bounds are `se`: the marker, the section feature,
`immediately_pre_window` when the anchor is neither at text start nor at
window start, the pre block, then `immediately_post_window` when the anchor
is neither at text end nor at window end, and the post block. -/
def ngrams_at (tokens : List String) (index : Nat) (marker : String)
    (se : Nat × Nat) : List String :=
  [marker] ++ add_section_feats tokens index ++
    (if 0 < index ∧ se.1 < index then
      ["immediately_pre_window=" ++ tokens.getD (index - 1) ""] else []) ++
    pre_block tokens index se.1 ++
    (if index < tokens.length - 1 ∧ index + 1 < se.2 then
      ["immediately_post_window=" ++ tokens.getD (index + 1) ""] else []) ++
    post_block tokens index se.2

/-- The anchor loop of `_ngrams` over a list of token indices: each token
equal to the anchor placeholder contributes its block; when `_get_window`
raises on one of them the whole call aborts (`none`). -/
def ngrams_go (tokens : List String) (marker : String) : List Nat → Option (List String)
  | [] => some []
  | index :: rest =>
    if tokens.getD index "" = "TEST_INSTANCE" then
      match get_window tokens index with
      | none => none
      | some se =>
        (ngrams_go tokens marker rest).map fun fs => ngrams_at tokens index marker se ++ fs
    else ngrams_go tokens marker rest

/-- All features of `_ngrams`, in token order, or `none` when the call
raises. -/
def ngrams_feats (tokens : List String) (marker : String) : Option (List String) :=
  ngrams_go tokens marker (List.range tokens.length)

/-! ### The pattern library

Modelled from the spec: the three pattern collections are loaded at startup
from JSON data files (`condensed_patterns.json`, `other_kw_patterns.json`,
`section_patterns.json`) that are not part of the source tree, so the
library is a parameter of the model.  A compiled test pattern is carried as
the substitution it induces for a given replacement (the same regex is used
with ` TEST_INSTANCE ` in `_test_instance` and with ` OTHER_TEST ` in
`_standardize`), its truncated positive-assertion search, and its test-name
label (the key of the JSON mapping, compared against the marker).  Section
and other-keyword patterns are carried as the full substitution pass they
induce (`subout.sub(' label ', text)`). -/
structure TestPattern where
  label : String
  subWith : String → String → String
  posMatch : String → Bool

/-- The pattern library: the three compiled collections. -/
structure Library where
  testPatterns : List TestPattern
  otherPatterns : List (String → String)
  sectionPatterns : List (String → String)

/-- Modelled from the spec: a marker test pattern built from a raw literal
fragment wrapped in the non-word cushions of `_compile_patterns`. -/
def mkCushionPattern (label lit : String) : TestPattern where
  label := label
  subWith := fun repl text => gsubStr (matchCushion lit.data) repl text
  posMatch := fun text => posSearch lit.data text.data

/-- Modelled from the spec: a concrete instantiation of the library for the
two markers of the system, with the lower-case fragment and its upper-cased
duplicate compiled for each (the `uppercase` flag of `_compile_patterns`),
and no other-keyword or section patterns. -/
def concreteLib : Library where
  testPatterns :=
    [mkCushionPattern "EGFR" "egfr", mkCushionPattern "EGFR" "EGFR",
     mkCushionPattern "ALK" "alk", mkCushionPattern "ALK" "ALK"]
  otherPatterns := []
  sectionPatterns := []

/-! ### The `Vectorizer` state and the pipeline stages

The source drives all stages against one shared mutable object holding the
compiled library (immutable after `__init__`) and the per-call fields
`accession`, `text`, `marker`, `vector`.  Each stage becomes a state
transformer. -/

structure Vectorizer where
  lib : Library
  accession : String
  text : String
  marker : String
  vector : List String

/-- A fresh vectorizer holding a library (the per-call fields are
overwritten by `make_vector` before use). -/
def initV (lib : Library) : Vectorizer :=
  ⟨lib, "", "", "", []⟩

/-- `_cytology_report`: the source evaluates the cytology regex and discards
the result, then appends the fixed feature unconditionally. -/
def cytology_report (v : Vectorizer) : Vectorizer :=
  { v with vector := v.vector ++ ["CYTO_RELATED_REPORT"] }

/-- `_positive_test`: scan the marker's own test patterns; on the first
whose truncated positive pattern matches, append the two fixed features and
stop. -/
def positive_test (v : Vectorizer) : Vectorizer :=
  { v with
    vector := v.vector ++
      (if v.lib.testPatterns.any (fun p => p.label = v.marker && p.posMatch v.text) then
        ["post_window=POSITIVE", "post_window=TEST_INSTANCE_POSITIVE"]
      else []) }

/-- `_test_instance`: replace every match of every marker-own pattern by the
anchor placeholder. -/
def test_instance (v : Vectorizer) : Vectorizer :=
  { v with
    text := v.lib.testPatterns.foldl
      (fun t p => if p.label = v.marker then p.subWith " TEST_INSTANCE " t else t)
      v.text }

/-- One pass of `_standardize`: every test pattern is substituted with the
other-test placeholder (the source does not filter by marker here), then the
section patterns, then the other-keyword patterns. -/
def standardize_pass (lib : Library) (t : String) : String :=
  let t1 := lib.testPatterns.foldl (fun t p => p.subWith " OTHER_TEST " t) t
  let t2 := lib.sectionPatterns.foldl (fun t f => f t) t1
  lib.otherPatterns.foldl (fun t f => f t) t2

/-- `_standardize`: the three sweeps are run twice to catch matches exposed
by a prior substitution. -/
def standardize (v : Vectorizer) : Vectorizer :=
  { v with text := standardize_pass v.lib (standardize_pass v.lib v.text) }

/-- `_other_accession`: rewrite all accession matches and append the fixed
sentinel feature. -/
def other_accession (v : Vectorizer) : Vectorizer :=
  { v with
    text := accSubstitute v.accession v.text,
    vector := v.vector ++ ["OTHER_ACC_NUM_IN_TEXT"] }

/-- `_insufficient`: the source evaluates the insufficient-sample regex and
discards the result, then appends the fixed feature unconditionally. -/
def insufficient (v : Vectorizer) : Vectorizer :=
  { v with vector := v.vector ++ ["INSUFFICIENT"] }

/-- `_substitute`: the sixteen table rules in index order — the ten label
collapses, the `TEST_INSTANCE`/`OTHER_TEST` collapse, dates, specimen
labels, stray characters, sentence punctuation, brackets. -/
def apply_substitutions (t : String) : String :=
  let t1 := replacements.foldl
    (fun t label => gsubStr (matchCollapse label.data) (" " ++ label ++ " ") t) t
  let t2 := gsubStr matchTIOT "TEST_INSTANCE" t1
  let t3 := gsubStr matchDate " DATE " t2
  let t4 := gsubStr matchSpecimen " SPECIMEN_LABEL " t3
  let t5 := gsubStr (matchClass isStrayChar) " " t4
  let t6 := gsubStr (matchClass isPunctChar) " PUNCTUATION " t5
  gsubStr (matchClass isBracketChar) " " t6

/-- `_substitute` as a stage. -/
def substitute (v : Vectorizer) : Vectorizer :=
  { v with text := apply_substitutions v.text }

/-- `_stop_list`: upper-case the buffer, then run the stop-word removal
twice. -/
def stop_list_step (v : Vectorizer) : Vectorizer :=
  { v with text := stopSub (stopSub (upperStr v.text)) }

/-- `_ngrams` as a stage; `none` when `_get_window` raises `ValueError` on
one of the anchors, which aborts the call. -/
def ngrams (v : Vectorizer) : Option Vectorizer :=
  (ngrams_feats (splitWs v.text) v.marker).map
    fun fs => { v with vector := v.vector ++ fs }

/-- `_test_mentions`: count the anchor placeholder in the final buffer,
append the fixed count feature, and append the sentinel exactly when the
count is zero. -/
def test_mentions (v : Vectorizer) : Vectorizer :=
  { v with
    vector := v.vector ++ ["COUNT_TEST_INSTANCE"] ++
      (if countSubStr v.text "TEST_INSTANCE" = 0 then ["NO_KEYWORD_IN_TEXT"] else []) }

/-- The state after the eight total stages preceding `_ngrams`: the
per-call fields are reset from the arguments, then the cytology, positive,
mention-substitution, standardize, accession, insufficient, substitution
and stop-list stages run in source order.  Its `text` is the fully
normalized buffer that `_ngrams` and `_test_mentions` read. -/
def pre_ngrams_state (v : Vectorizer) (text accession marker : String) : Vectorizer :=
  stop_list_step (substitute (insufficient (other_accession (standardize
    (test_instance (positive_test (cytology_report
      { v with
        accession := stripDashSpace accession,
        text := get_text text,
        marker := marker,
        vector := [] })))))))

/-- `make_vector`: the eight total stages, then `_ngrams` (which can raise
`ValueError` out of `_get_window`, aborting the call — `none`), then
`_test_mentions`.  On success returns the final state together with the
feature vector. -/
def make_vector (v : Vectorizer) (text accession marker : String) :
    Option (Vectorizer × List String) :=
  (ngrams (pre_ngrams_state v text accession marker)).map
    fun v9 => (test_mentions v9, (test_mentions v9).vector)

/-! ## Structural lemmas about the pipeline -/

/-- Inversion of a successful call: the n-gram stage succeeded on the fully
normalized buffer, the returned state's `text` is that buffer, and the
feature vector decomposes into the blocks appended by the ten stages, in
order. -/
theorem make_vector_eq (v : Vectorizer) (t a m : String)
    (r : Vectorizer × List String) (h : make_vector v t a m = some r) :
    ∃ fs, ngrams_feats (splitWs (pre_ngrams_state v t a m).text) m = some fs ∧
      r.1.text = (pre_ngrams_state v t a m).text ∧
      r.2 =
        ["CYTO_RELATED_REPORT"]
        ++ (if v.lib.testPatterns.any (fun p => p.label = m && p.posMatch (get_text t)) then
              ["post_window=POSITIVE", "post_window=TEST_INSTANCE_POSITIVE"] else [])
        ++ ["OTHER_ACC_NUM_IN_TEXT"] ++ ["INSUFFICIENT"]
        ++ fs ++ ["COUNT_TEST_INSTANCE"]
        ++ (if countSubStr (pre_ngrams_state v t a m).text "TEST_INSTANCE" = 0 then
              ["NO_KEYWORD_IN_TEXT"] else []) := by
  unfold make_vector at h
  obtain ⟨v9, hng, hr⟩ := Option.map_eq_some'.1 h
  rw [ngrams] at hng
  obtain ⟨fs, hfs, hv9⟩ := Option.map_eq_some'.1 hng
  subst hv9
  subst hr
  refine ⟨fs, hfs, rfl, ?_⟩
  simp only [test_mentions, pre_ngrams_state, stop_list_step, substitute,
    insufficient, other_accession, standardize, test_instance, positive_test,
    cytology_report]
  simp [List.append_assoc]

/-- A string starting with the character of a non-empty prefix keeps that
first character under append. -/
theorem append_data_cons (p q : String) (c : Char) (rest : List Char)
    (h : p.data = c :: rest) : (p ++ q).data = c :: (rest ++ q.data) := by
  rw [String.data_append, h]
  rfl

/-- A string whose first character differs from `N` is not the sentinel. -/
theorem ne_sentinel_of_head (x : String) (c : Char) (rest : List Char)
    (h : x.data = c :: rest) (hc : c ≠ 'N') : x ≠ "NO_KEYWORD_IN_TEXT" := by
  intro he
  subst he
  rw [show "NO_KEYWORD_IN_TEXT".data = 'N' :: "O_KEYWORD_IN_TEXT".data from rfl] at h
  injection h with h1 _
  exact hc h1.symm

/-- Every feature produced by the backward section scan carries the
`SECTION=` prefix. -/
theorem mem_add_section_scan {l : List String} {prev x : String}
    (h : x ∈ add_section_scan l prev) : ∃ s, x = "SECTION=" ++ s := by
  induction l generalizing prev with
  | nil => simp [add_section_scan] at h
  | cons c rest ih =>
    rw [add_section_scan] at h
    split at h
    · simp at h
      exact ⟨_, h⟩
    · exact ih h

/-- Every feature emitted for one anchor is the marker itself or carries one
of the five fixed feature prefixes. -/
theorem mem_ngrams_at {tokens : List String} {index : Nat} {m x : String}
    {se : Nat × Nat} (h : x ∈ ngrams_at tokens index m se) :
    x = m ∨ ∃ p s, p ∈ (["SECTION=", "immediately_pre_window=", "pre_window=",
      "immediately_post_window=", "post_window="] : List String) ∧ x = p ++ s := by
  rw [ngrams_at] at h
  simp only [List.append_assoc, List.mem_append, List.mem_singleton] at h
  rcases h with h | h | h | h | h | h
  · exact Or.inl h
  · have h2 : x ∈ add_section_scan (tokens.take index).reverse "" := h
    obtain ⟨s, hs⟩ := mem_add_section_scan h2
    exact Or.inr ⟨"SECTION=", s, by simp, hs⟩
  · split at h
    · simp at h
      exact Or.inr ⟨"immediately_pre_window=", _, by simp, h⟩
    · simp at h
  · rw [pre_block] at h
    obtain ⟨i, _, hi⟩ := List.mem_flatMap.1 h
    rcases List.mem_cons.1 hi with h1 | h1
    · exact Or.inr ⟨"pre_window=", _, by simp, h1⟩
    · obtain ⟨j, _, hj⟩ := List.mem_filterMap.1 h1
      split at hj
      · cases hj
        refine Or.inr ⟨"pre_window=",
          pyGet tokens ((i : Int) - (j : Int)) ++ ("_" ++ tokens.getD i ""), by simp, ?_⟩
        rw [String.append_assoc, String.append_assoc]
      · cases hj
  · split at h
    · simp at h
      exact Or.inr ⟨"immediately_post_window=", _, by simp, h⟩
    · simp at h
  · rw [post_block] at h
    obtain ⟨i, _, hi⟩ := List.mem_flatMap.1 h
    rcases List.mem_cons.1 hi with h1 | h1
    · exact Or.inr ⟨"post_window=", _, by simp, h1⟩
    · obtain ⟨j, _, hj⟩ := List.mem_filterMap.1 h1
      split at hj
      · cases hj
        refine Or.inr ⟨"post_window=",
          tokens.getD i "" ++ ("_" ++ tokens.getD (i + j) ""), by simp, ?_⟩
        rw [String.append_assoc, String.append_assoc]
      · cases hj

/-- Every feature in a successful run of the anchor loop is the marker or
carries one of the five fixed prefixes. -/
theorem mem_ngrams_go {tokens : List String} {m x : String} {l : List Nat}
    {fs : List String} (hgo : ngrams_go tokens m l = some fs) (hx : x ∈ fs) :
    x = m ∨ ∃ p s, p ∈ (["SECTION=", "immediately_pre_window=", "pre_window=",
      "immediately_post_window=", "post_window="] : List String) ∧ x = p ++ s := by
  induction l generalizing fs with
  | nil =>
    simp only [ngrams_go] at hgo
    cases hgo
    simp at hx
  | cons index rest ih =>
    rw [ngrams_go] at hgo
    by_cases ha : tokens.getD index "" = "TEST_INSTANCE"
    · rw [if_pos ha] at hgo
      cases hgw : get_window tokens index with
      | none =>
        rw [hgw] at hgo
        exact Option.noConfusion hgo
      | some se =>
        rw [hgw] at hgo
        have hgo2 : (ngrams_go tokens m rest).map
            (fun fs2 => ngrams_at tokens index m se ++ fs2) = some fs := hgo
        obtain ⟨fs2, hrest, hfs2⟩ := Option.map_eq_some'.1 hgo2
        subst hfs2
        rcases List.mem_append.1 hx with h1 | h1
        · exact mem_ngrams_at h1
        · exact ih hrest h1
    · rw [if_neg ha] at hgo
      exact ih hgo hx

/-- No n-gram feature of a successful run equals the sentinel unless the
marker itself is the sentinel string. -/
theorem ngram_ne_sentinel {tokens : List String} {m x : String} {fs : List String}
    (hm : m ≠ "NO_KEYWORD_IN_TEXT") (hfs : ngrams_feats tokens m = some fs)
    (h : x ∈ fs) : x ≠ "NO_KEYWORD_IN_TEXT" := by
  have hgo : ngrams_go tokens m (List.range tokens.length) = some fs := hfs
  rcases mem_ngrams_go hgo h with h1 | ⟨p, s, hp, hx⟩
  · exact h1 ▸ hm
  · subst hx
    fin_cases hp
    · exact ne_sentinel_of_head _ 'S' _ (append_data_cons _ _ _ _ rfl) (by decide)
    · exact ne_sentinel_of_head _ 'i' _ (append_data_cons _ _ _ _ rfl) (by decide)
    · exact ne_sentinel_of_head _ 'p' _ (append_data_cons _ _ _ _ rfl) (by decide)
    · exact ne_sentinel_of_head _ 'i' _ (append_data_cons _ _ _ _ rfl) (by decide)
    · exact ne_sentinel_of_head _ 'p' _ (append_data_cons _ _ _ _ rfl) (by decide)

/-- The anchor loop aborts only because `_get_window` raised at one of the
anchors of the index list. -/
theorem ngrams_go_none {tokens : List String} {m : String} {l : List Nat}
    (h : ngrams_go tokens m l = none) :
    ∃ index ∈ l, tokens.getD index "" = "TEST_INSTANCE" ∧
      get_window tokens index = none := by
  induction l with
  | nil =>
    simp only [ngrams_go] at h
    exact Option.noConfusion h
  | cons index rest ih =>
    rw [ngrams_go] at h
    by_cases ha : tokens.getD index "" = "TEST_INSTANCE"
    · rw [if_pos ha] at h
      cases hgw : get_window tokens index with
      | none => exact ⟨index, List.mem_cons_self _ _, ha, hgw⟩
      | some se =>
        rw [hgw] at h
        have h2 : (ngrams_go tokens m rest).map
            (fun fs2 => ngrams_at tokens index m se ++ fs2) = none := h
        obtain ⟨i, hi, h3, h4⟩ := ih (Option.map_eq_none'.1 h2)
        exact ⟨i, List.mem_cons_of_mem _ hi, h3, h4⟩
    · rw [if_neg ha] at h
      obtain ⟨i, hi, h3, h4⟩ := ih h
      exact ⟨i, List.mem_cons_of_mem _ hi, h3, h4⟩

/-- Computation rule of `_get_window` when both candidate lists are
non-empty. -/
theorem get_window_eq_some (tokens : List String) (index : Nat) (s e : Nat)
    (ss es : List Nat) (hs : startCands tokens index = s :: ss)
    (he : endCands tokens index = e :: es) :
    get_window tokens index =
      some ((index - 10) + pyMaxNat s ss, (index - 10) + pyMinNat e es) := by
  have h0 : (match startCands tokens index, endCands tokens index with
      | s :: ss, e :: es =>
        some ((index - 10) + pyMaxNat s ss, (index - 10) + pyMinNat e es)
      | _, _ => none) = get_window tokens index := rfl
  rw [← h0, hs, he]

/-- Computation rule of `_get_window` when the start-candidate list is
empty: Python raises `ValueError` on `max()` of the empty sequence. -/
theorem get_window_eq_none (tokens : List String) (index : Nat)
    (hs : startCands tokens index = []) :
    get_window tokens index = none := by
  have h0 : (match startCands tokens index, endCands tokens index with
      | s :: ss, e :: es =>
        some ((index - 10) + pyMaxNat s ss, (index - 10) + pyMinNat e es)
      | _, _ => none) = get_window tokens index := rfl
  rw [← h0, hs]

/-- `_ngrams` raises exactly when the tokenized buffer is the single anchor
token: for an anchor inside the buffer, the start-candidate list of
`_get_window` is empty precisely when the candidate window has length one,
and with at least two tokens every candidate window around an in-range
anchor has length at least two. -/
theorem ngrams_feats_none_iff (tokens : List String) (m : String) :
    ngrams_feats tokens m = none ↔ tokens = ["TEST_INSTANCE"] := by
  constructor
  · intro h
    obtain ⟨index, hmem, ha, hgw⟩ := ngrams_go_none h
    have hlt : index < tokens.length := List.mem_range.1 hmem
    have hL1 : 1 ≤ min tokens.length (index + 10) - (index - 10) := by omega
    have hse : startCands tokens index = [] := by
      cases hs : startCands tokens index with
      | nil => rfl
      | cons s ss =>
        exfalso
        have hec : (min tokens.length (index + 10) - (index - 10)) ∈
            endCands tokens index := by
          rw [endCands]
          refine List.mem_filter.2 ⟨List.mem_append_right _ (List.mem_singleton.2 rfl),
            decide_eq_true (by omega)⟩
        cases he : endCands tokens index with
        | nil =>
          rw [he] at hec
          simp at hec
        | cons e es =>
          rw [get_window_eq_some tokens index s e ss es hs he] at hgw
          exact Option.noConfusion hgw
    have h0 : ¬ (0 < (min tokens.length (index + 10) - (index - 10)) / 2) := by
      intro h0
      have hm : (0 : Nat) ∈ (winBreaks tokens index ++ [0]).filter
          (fun b => b < (min tokens.length (index + 10) - (index - 10)) / 2) :=
        List.mem_filter.2 ⟨List.mem_append_right _ (List.mem_singleton.2 rfl),
          decide_eq_true h0⟩
      have hm2 : (0 + 1) ∈ startCands tokens index := by
        rw [startCands]
        exact List.mem_map_of_mem _ hm
      rw [hse] at hm2
      simp at hm2
    have hLe : min tokens.length (index + 10) - (index - 10) = 1 := by omega
    have hlen : tokens.length = 1 ∧ index = 0 := by omega
    cases tokens with
    | nil => simp at hlt
    | cons t ts =>
      cases ts with
      | nil =>
        have ht : t = "TEST_INSTANCE" := by
          have := hlen.2
          subst this
          exact ha
        rw [ht]
      | cons t2 ts2 => simp at hlen
  · intro h
    subst h
    rfl

/-! ## Claims -/

/-- C1 (counterexample): with the marker argument equal to the literal
string `NO_KEYWORD_IN_TEXT` and a text whose normalized buffer contains the
anchor placeholder (next to another token, so the window computation does
not raise), the call returns and its feature sequence contains
`NO_KEYWORD_IN_TEXT` (the marker feature appended by the n-gram stage) even
though the anchor count of the normalized buffer is not zero, so the
biconditional of the claim fails. -/
theorem C1_counterexample :
    ((make_vector (initV concreteLib) "a TEST_INSTANCE" "S171234" "NO_KEYWORD_IN_TEXT").map
      (fun r => decide ("NO_KEYWORD_IN_TEXT" ∈ r.2))).getD false = true ∧
    ((make_vector (initV concreteLib) "a TEST_INSTANCE" "S171234" "NO_KEYWORD_IN_TEXT").map
      (fun r => countSubStr r.1.text "TEST_INSTANCE")).getD 0 ≠ 0 := by
  constructor
  · decide
  · decide

/-- C1 (amended): for every library, text and accession, and every marker
other than the literal string `NO_KEYWORD_IN_TEXT` (the marker is the only
raw token appended to the vector; all other n-gram features carry a fixed
prefix), whenever the call returns, the sentinel appears in the returned
feature sequence if and only if the anchor-placeholder count of the fully
normalized buffer is zero, and when it appears the sequence ends with
`COUNT_TEST_INSTANCE` followed by the sentinel. -/
theorem C1_sentinel_exclusivity (lib : Library) (t a m : String)
    (h : m ≠ "NO_KEYWORD_IN_TEXT") :
    (make_vector (initV lib) t a m).elim True (fun r =>
      ("NO_KEYWORD_IN_TEXT" ∈ r.2 ↔ countSubStr r.1.text "TEST_INSTANCE" = 0) ∧
      (countSubStr r.1.text "TEST_INSTANCE" = 0 →
        ∃ pre, r.2 = pre ++ ["COUNT_TEST_INSTANCE", "NO_KEYWORD_IN_TEXT"])) := by
  cases hmv : make_vector (initV lib) t a m with
  | none => trivial
  | some r =>
    obtain ⟨fs, hfs, htext, hvec⟩ := make_vector_eq (initV lib) t a m r hmv
    show (_ ↔ _) ∧ _
    rw [htext]
    constructor
    · constructor
      · intro hmem
        by_contra hc
        rw [hvec, if_neg hc] at hmem
        simp only [List.append_assoc, List.append_nil, List.mem_append,
          List.mem_singleton] at hmem
        rcases hmem with h1 | h1 | h1 | h1 | h1 | h1
        · exact absurd h1 (by decide)
        · split at h1 <;> simp at h1
        · exact absurd h1 (by decide)
        · exact absurd h1 (by decide)
        · exact ngram_ne_sentinel h hfs h1 rfl
        · exact absurd h1 (by decide)
      · intro h0
        rw [hvec, if_pos h0]
        simp
    · intro h0
      rw [hvec, if_pos h0]
      refine ⟨["CYTO_RELATED_REPORT"]
        ++ (if (initV lib).lib.testPatterns.any
              (fun p => p.label = m && p.posMatch (get_text t)) then
              ["post_window=POSITIVE", "post_window=TEST_INSTANCE_POSITIVE"] else [])
        ++ ["OTHER_ACC_NUM_IN_TEXT"] ++ ["INSUFFICIENT"] ++ fs, ?_⟩
      simp [List.append_assoc]

/-- C1 (witness): the amended claim applied at a concrete returning call. -/
theorem C1_witness :
    (make_vector (initV concreteLib) "a x" "S171234" "EGFR").elim True (fun r =>
      ("NO_KEYWORD_IN_TEXT" ∈ r.2 ↔ countSubStr r.1.text "TEST_INSTANCE" = 0) ∧
      (countSubStr r.1.text "TEST_INSTANCE" = 0 →
        ∃ pre, r.2 = pre ++ ["COUNT_TEST_INSTANCE", "NO_KEYWORD_IN_TEXT"])) :=
  C1_sentinel_exclusivity concreteLib "a x" "S171234" "EGFR" (by decide)

set_option maxRecDepth 8192 in
/-- C3: the source computes the insufficient-sample regex result and
discards it, so `INSUFFICIENT` is appended on every returning call — in
particular the end-to-end scenario call returns (its buffer has no anchor
token) and its vector contains `INSUFFICIENT` although the text has no
insufficient-sample language, where the claim requires it to be absent. -/
theorem C3_insufficient_unconditional :
    (∀ (lib : Library) (t a m : String),
      (make_vector (initV lib) t a m).elim True (fun r => "INSUFFICIENT" ∈ r.2)) ∧
    ((make_vector (initV concreteLib)
        "EGFR mutation testing: negative. (S17-1111)" "S17-1111" "EGFR").map
      (fun r => decide ("INSUFFICIENT" ∈ r.2))).getD false = true := by
  constructor
  · intro lib t a m
    cases hmv : make_vector (initV lib) t a m with
    | none => trivial
    | some r =>
      obtain ⟨fs, hfs, htext, hvec⟩ := make_vector_eq (initV lib) t a m r hmv
      show "INSUFFICIENT" ∈ r.2
      rw [hvec]
      exact List.mem_append_left _ (List.mem_append_left _ (List.mem_append_left _
        (List.mem_append_right _ (List.mem_singleton.2 rfl))))
  · decide

/-- C7: `make_vector` overwrites every per-call field of the shared state
before reading it, so the outcome (the feature sequence, or the abort)
depends only on the immutable pattern library and the call arguments — two
states agreeing on the library produce identical results regardless of the
leftover text, accession, marker and vector of earlier calls. -/
theorem C7_determinism (v w : Vectorizer) (t a m : String) (h : v.lib = w.lib) :
    (make_vector v t a m).map Prod.snd = (make_vector w t a m).map Prod.snd := by
  cases v
  cases w
  dsimp only at h
  subst h
  rfl

/-- C7 (witness): a state carrying arbitrary leftovers from earlier calls
gives the same output as a fresh state over the same library. -/
theorem C7_witness :
    (make_vector ⟨concreteLib, "ZZZ99", "stale buffer", "ALK", ["STALE"]⟩
      "a TEST_INSTANCE" "S171234" "EGFR").map Prod.snd =
    (make_vector (initV concreteLib) "a TEST_INSTANCE" "S171234" "EGFR").map Prod.snd :=
  C7_determinism ⟨concreteLib, "ZZZ99", "stale buffer", "ALK", ["STALE"]⟩
    (initV concreteLib) "a TEST_INSTANCE" "S171234" "EGFR" rfl

/-- C9: the claim is false of the program — `_get_window` takes `max()` of
an empty candidate list whenever the tokenized normalized buffer is the
single anchor token (the window length is 1, its floor midpoint 0, and even
the sentinel start candidate fails the filter), and the resulting
`ValueError` aborts the call.  The text `" egfr "` normalizes to exactly
`" TEST_INSTANCE "`, so that call does not return; and a call aborts in
exactly this one situation. -/
theorem C9_crash :
    make_vector (initV concreteLib) " egfr " "S171234" "EGFR" = none ∧
    (∀ (lib : Library) (t a m : String),
      make_vector (initV lib) t a m = none ↔
        splitWs (pre_ngrams_state (initV lib) t a m).text = ["TEST_INSTANCE"]) := by
  constructor
  · rfl
  · intro lib t a m
    cases hng : ngrams (pre_ngrams_state (initV lib) t a m) with
    | none =>
      have hfeats : ngrams_feats (splitWs (pre_ngrams_state (initV lib) t a m).text)
          ((pre_ngrams_state (initV lib) t a m).marker) = none :=
        Option.map_eq_none'.1 hng
      have hS := (ngrams_feats_none_iff _ _).1 hfeats
      have hmv : make_vector (initV lib) t a m = none := by
        rw [make_vector, hng]
        rfl
      exact iff_of_true hmv hS
    | some v9 =>
      have hfeats : ngrams_feats (splitWs (pre_ngrams_state (initV lib) t a m).text)
          ((pre_ngrams_state (initV lib) t a m).marker) ≠ none := by
        intro hn
        rw [ngrams, hn] at hng
        exact Option.noConfusion hng
      have hS : ¬ splitWs (pre_ngrams_state (initV lib) t a m).text =
          ["TEST_INSTANCE"] :=
        fun he => hfeats ((ngrams_feats_none_iff _ _).2 he)
      have hmv : make_vector (initV lib) t a m ≠ none := by
        rw [make_vector, hng]
        exact fun hh => Option.noConfusion hh
      exact iff_of_false hmv hS

/-- C10: whenever a call returns, the first element of the feature sequence
is the `CYTO_RELATED_REPORT` feature, appended by the first stage
unconditionally (the cytology regex result is computed and discarded by the
source); the second conjunct exercises a concrete returning call. -/
theorem C10_first_feature :
    (∀ (lib : Library) (t a m : String),
      (make_vector (initV lib) t a m).elim True
        (fun r => r.2.head? = some "CYTO_RELATED_REPORT")) ∧
    ((make_vector (initV concreteLib) "a x" "S171234" "EGFR").map
      (fun r => r.2.head?)).getD none = some "CYTO_RELATED_REPORT" := by
  constructor
  · intro lib t a m
    cases hmv : make_vector (initV lib) t a m with
    | none => trivial
    | some r =>
      obtain ⟨fs, hfs, htext, hvec⟩ := make_vector_eq (initV lib) t a m r hmv
      show r.2.head? = some "CYTO_RELATED_REPORT"
      rw [hvec]
      rfl
  · decide


/-! ### Window lemmas (C5, C2) -/

/-- The seed is bounded by the Python `max` of a non-empty list. -/
theorem le_pyMaxNat_base (xs : List Nat) (x : Nat) : x ≤ pyMaxNat x xs := by
  induction xs generalizing x with
  | nil => exact le_refl x
  | cons y ys ih => exact le_trans (le_max_left x y) (ih (max x y))

/-- Every element of a non-empty list is bounded by its Python `max`. -/
theorem le_pyMaxNat {a : Nat} (xs : List Nat) (x : Nat) (h : a ∈ x :: xs) :
    a ≤ pyMaxNat x xs := by
  induction xs generalizing x with
  | nil =>
    simp at h
    exact h ▸ le_refl a
  | cons y ys ih =>
    rcases List.mem_cons.1 h with h1 | h1
    · subst h1
      exact le_trans (le_max_left _ _) (le_pyMaxNat_base ys _)
    · rcases List.mem_cons.1 h1 with h2 | h2
      · subst h2
        exact le_trans (le_max_right x _) (le_pyMaxNat_base ys _)
      · exact ih (max x y) (List.mem_cons_of_mem _ h2)

/-- The Python `min` of a non-empty list is below the seed. -/
theorem pyMinNat_le_base (xs : List Nat) (x : Nat) : pyMinNat x xs ≤ x := by
  induction xs generalizing x with
  | nil => exact le_refl x
  | cons y ys ih => exact le_trans (ih (min x y)) (min_le_left x y)

/-- The Python `min` of a non-empty list is below every element. -/
theorem pyMinNat_le {a : Nat} (xs : List Nat) (x : Nat) (h : a ∈ x :: xs) :
    pyMinNat x xs ≤ a := by
  induction xs generalizing x with
  | nil =>
    simp at h
    exact h ▸ le_refl a
  | cons y ys ih =>
    rcases List.mem_cons.1 h with h1 | h1
    · subst h1
      exact le_trans (pyMinNat_le_base ys _) (min_le_left _ _)
    · rcases List.mem_cons.1 h1 with h2 | h2
      · subst h2
        exact le_trans (pyMinNat_le_base ys _) (min_le_right x _)
      · exact ih (min x y) (List.mem_cons_of_mem _ h2)

/-- Inversion of a successful `_get_window` call: both candidate lists are
non-empty and the bounds are window start plus their `max`/`min`. -/
theorem get_window_inv {tokens : List String} {index : Nat} {se : Nat × Nat}
    (hgw : get_window tokens index = some se) :
    ∃ s ss e es, startCands tokens index = s :: ss ∧ endCands tokens index = e :: es ∧
      se.1 = (index - 10) + pyMaxNat s ss ∧ se.2 = (index - 10) + pyMinNat e es := by
  have hgw2 : (match startCands tokens index, endCands tokens index with
      | s :: ss, e :: es =>
        some ((index - 10) + pyMaxNat s ss, (index - 10) + pyMinNat e es)
      | _, _ => none) = some se := hgw
  cases hs : startCands tokens index with
  | nil =>
    rw [hs] at hgw2
    exact Option.noConfusion hgw2
  | cons s ss =>
    rw [hs] at hgw2
    cases he : endCands tokens index with
    | nil =>
      rw [he] at hgw2
      exact Option.noConfusion hgw2
    | cons e es =>
      rw [he] at hgw2
      have h3 : some ((index - 10) + pyMaxNat s ss,
          (index - 10) + pyMinNat e es) = some se := hgw2
      cases h3
      exact ⟨s, ss, e, es, rfl, rfl, rfl, rfl⟩

/-- A boundary at candidate-window position `b` strictly before the floor
midpoint pushes the window start past it. -/
theorem get_window_start_ge {tokens : List String} {index : Nat} {se : Nat × Nat}
    (b : Nat) (hb : b < min tokens.length (index + 10) - (index - 10))
    (h2 : b < (min tokens.length (index + 10) - (index - 10)) / 2)
    (hbd : isBoundaryTok (tokens.getD ((index - 10) + b) "") = true)
    (hgw : get_window tokens index = some se) :
    (index - 10) + b + 1 ≤ se.1 := by
  obtain ⟨s, ss, e, es, hs, he, h1, _⟩ := get_window_inv hgw
  have hbrk : b ∈ winBreaks tokens index := by
    rw [winBreaks]
    exact List.mem_filter.2 ⟨List.mem_range.2 hb, hbd⟩
  have hmem : b + 1 ∈ startCands tokens index := by
    rw [startCands]
    exact List.mem_map_of_mem _
      (List.mem_filter.2 ⟨List.mem_append_left _ hbrk, decide_eq_true h2⟩)
  rw [hs] at hmem
  have := le_pyMaxNat ss s hmem
  omega

/-- A boundary at candidate-window position `b` strictly after the floor
midpoint pulls the window end in front of it. -/
theorem get_window_end_le {tokens : List String} {index : Nat} {se : Nat × Nat}
    (b : Nat) (hb : b < min tokens.length (index + 10) - (index - 10))
    (h2 : (min tokens.length (index + 10) - (index - 10)) / 2 < b)
    (hbd : isBoundaryTok (tokens.getD ((index - 10) + b) "") = true)
    (hgw : get_window tokens index = some se) :
    se.2 ≤ (index - 10) + b := by
  obtain ⟨s, ss, e, es, hs, he, _, h1⟩ := get_window_inv hgw
  have hbrk : b ∈ winBreaks tokens index := by
    rw [winBreaks]
    exact List.mem_filter.2 ⟨List.mem_range.2 hb, hbd⟩
  have hmem : b ∈ endCands tokens index := by
    rw [endCands]
    exact List.mem_filter.2 ⟨List.mem_append_left _ hbrk, decide_eq_true h2⟩
  rw [he] at hmem
  have := pyMinNat_le es e hmem
  omega

/-- The window end never passes the clipped candidate end. -/
theorem get_window_end_le_clip {tokens : List String} {index : Nat} {se : Nat × Nat}
    (hL : 1 ≤ min tokens.length (index + 10) - (index - 10))
    (hgw : get_window tokens index = some se) :
    se.2 ≤ (index - 10) + (min tokens.length (index + 10) - (index - 10)) := by
  obtain ⟨s, ss, e, es, hs, he, _, h1⟩ := get_window_inv hgw
  have hmem : (min tokens.length (index + 10) - (index - 10)) ∈ endCands tokens index := by
    rw [endCands]
    exact List.mem_filter.2 ⟨List.mem_append_right _ (List.mem_singleton.2 rfl),
      decide_eq_true (by omega)⟩
  rw [he] at hmem
  have := pyMinNat_le es e hmem
  omega

/-- The window start never precedes the clipped candidate start. -/
theorem get_window_start_ge_clip {tokens : List String} {index : Nat} {se : Nat × Nat}
    (hgw : get_window tokens index = some se) :
    index - 10 ≤ se.1 := by
  obtain ⟨s, ss, e, es, _, _, h1, _⟩ := get_window_inv hgw
  omega

/-- C5 (counterexample): on twenty-one plain tokens with the anchor index in
the middle there is no boundary token at all, yet the window start returned
by `_get_window` is 1, not the clipped candidate start `max(10-10, 0) = 0`:
the sentinel break at window position 0 also receives the `+ 1`. -/
theorem C5_counterexample :
    (∀ b, b < 21 → isBoundaryTok ((List.replicate 21 "W").getD b "") = false) ∧
    (get_window (List.replicate 21 "W") 10).map Prod.fst ≠ some (10 - 10) ∧
    (get_window (List.replicate 21 "W") 10).map Prod.fst = some 1 := by
  refine ⟨by decide, by decide, by decide⟩

/-- C5 (amended): for an anchor inside the token list whose candidate
window holds at least two tokens, when no boundary token occupies a
candidate-window position strictly before the floor midpoint
`len(window) / 2` (the source is Python 2, so this is integer division) the
true start is the clipped candidate start *plus one*; when no boundary
occupies a position strictly after the floor midpoint the true end is the
clipped candidate end, exactly as clipped; and when the candidate window is
a single token the source raises `ValueError` (`max()` of an empty
sequence) instead of returning a window. -/
theorem C5_window_defaults (tokens : List String) (index : Nat)
    (h1 : index < tokens.length) :
    ((2 ≤ min tokens.length (index + 10) - (index - 10)) →
      (∀ b, b < min tokens.length (index + 10) - (index - 10) →
        b < (min tokens.length (index + 10) - (index - 10)) / 2 →
        isBoundaryTok (tokens.getD ((index - 10) + b) "") = false) →
      (get_window tokens index).map Prod.fst = some ((index - 10) + 1)) ∧
    ((2 ≤ min tokens.length (index + 10) - (index - 10)) →
      (∀ b, b < min tokens.length (index + 10) - (index - 10) →
        (min tokens.length (index + 10) - (index - 10)) / 2 < b →
        isBoundaryTok (tokens.getD ((index - 10) + b) "") = false) →
      (get_window tokens index).map Prod.snd = some (min tokens.length (index + 10))) ∧
    (min tokens.length (index + 10) - (index - 10) = 1 →
      get_window tokens index = none) := by
  refine ⟨?_, ?_, ?_⟩
  · intro h2 hpre
    have hfil : (winBreaks tokens index).filter
        (fun b => b < (min tokens.length (index + 10) - (index - 10)) / 2) = [] := by
      refine List.filter_eq_nil_iff.2 ?_
      intro b hb hlt
      rw [winBreaks] at hb
      have hb2 := List.mem_filter.1 hb
      have hbr := List.mem_range.1 hb2.1
      have hbd : isBoundaryTok (tokens.getD ((index - 10) + b) "") = true := hb2.2
      rw [hpre b hbr (of_decide_eq_true hlt)] at hbd
      exact absurd hbd (by simp)
    have hcs : startCands tokens index = [1] := by
      rw [startCands, List.filter_append, hfil]
      rw [List.filter_cons_of_pos]
      · rfl
      · exact decide_eq_true (by omega)
    have hec : (min tokens.length (index + 10) - (index - 10)) ∈
        endCands tokens index := by
      rw [endCands]
      exact List.mem_filter.2 ⟨List.mem_append_right _ (List.mem_singleton.2 rfl),
        decide_eq_true (by omega)⟩
    cases he : endCands tokens index with
    | nil =>
      rw [he] at hec
      simp at hec
    | cons e es =>
      rw [get_window_eq_some tokens index 1 e [] es hcs he]
      rfl
  · intro h2 hpost
    have hfil : (winBreaks tokens index).filter
        (fun b => (min tokens.length (index + 10) - (index - 10)) / 2 < b) = [] := by
      refine List.filter_eq_nil_iff.2 ?_
      intro b hb hlt
      rw [winBreaks] at hb
      have hb2 := List.mem_filter.1 hb
      have hbr := List.mem_range.1 hb2.1
      have hbd : isBoundaryTok (tokens.getD ((index - 10) + b) "") = true := hb2.2
      rw [hpost b hbr (of_decide_eq_true hlt)] at hbd
      exact absurd hbd (by simp)
    have hce : endCands tokens index =
        [min tokens.length (index + 10) - (index - 10)] := by
      rw [endCands, List.filter_append, hfil]
      rw [List.filter_cons_of_pos]
      · rfl
      · exact decide_eq_true (by omega)
    have hsc : (0 + 1) ∈ startCands tokens index := by
      rw [startCands]
      exact List.mem_map_of_mem _
        (List.mem_filter.2 ⟨List.mem_append_right _ (List.mem_singleton.2 rfl),
          decide_eq_true (by omega)⟩)
    cases hs : startCands tokens index with
    | nil =>
      rw [hs] at hsc
      simp at hsc
    | cons s ss =>
      rw [get_window_eq_some tokens index s
        (min tokens.length (index + 10) - (index - 10)) ss [] hs hce]
      show some ((index - 10) +
        (min tokens.length (index + 10) - (index - 10))) = _
      exact congrArg some (by omega)
  · intro hL1
    have hcs : startCands tokens index = [] := by
      rw [startCands]
      refine List.map_eq_nil_iff.2 (List.filter_eq_nil_iff.2 ?_)
      intro b hb hlt
      have := of_decide_eq_true hlt
      omega
    exact get_window_eq_none tokens index hcs

/-- C5 (witness): the amended claim applied at the twenty-one-token input
(and the crash clause at the single-anchor-token input). -/
theorem C5_witness :
    (get_window (List.replicate 21 "W") 10).map Prod.fst = some ((10 - 10) + 1) ∧
    (get_window (List.replicate 21 "W") 10).map Prod.snd = some (min 21 (10 + 10)) ∧
    get_window ["TEST_INSTANCE"] 0 = none :=
  ⟨(C5_window_defaults (List.replicate 21 "W") 10 (by decide)).1 (by decide) (by decide),
   (C5_window_defaults (List.replicate 21 "W") 10 (by decide)).2.1 (by decide) (by decide),
   (C5_window_defaults ["TEST_INSTANCE"] 0 (by decide)).2.2 (by decide)⟩


/-! ### Stop-word lemmas (C8) -/

/-- Consuming a literal removes exactly its length. -/
theorem consumeLit_length {p s r : List Char} (h : consumeLit p s = some r) :
    r.length + p.length = s.length := by
  induction p generalizing s with
  | nil =>
    rw [consumeLit] at h
    cases h
    simp
  | cons a ps ih =>
    cases s with
    | nil => simp [consumeLit] at h
    | cons c cs =>
      rw [consumeLit] at h
      split at h
      · have := ih h
        simp at this ⊢
        omega
      · cases h

/-- A successful tail-group match consumes at least the final class
character. -/
theorem stopTailMatch_length {r r2 : List Char} (ts : List String)
    (h : stopTailMatch r ts = some r2) : r2.length + 1 ≤ r.length := by
  induction ts with
  | nil => simp [stopTailMatch] at h
  | cons t ts ih =>
    rw [stopTailMatch] at h
    cases hc : consumeLit t.data r with
    | none =>
      simp only [hc] at h
      exact ih h
    | some rest =>
      simp only [hc] at h
      cases rest with
      | nil => exact ih h
      | cons d r3 =>
        have h2 : (if (isSpaceChar d || decide (d = '$')) = true then some r3
            else stopTailMatch r ts) = some r2 := h
        by_cases hd : (isSpaceChar d || decide (d = '$')) = true
        · rw [if_pos hd] at h2
          cases h2
          have := consumeLit_length hc
          simp at this
          omega
        · rw [if_neg hd] at h2
          exact ih h2

/-- A successful stop-word match (word plus optional tail plus final class
character) consumes at least two characters after the leading class. -/
theorem stopWordMatch_length {r r2 : List Char} (ws : List String)
    (hw : ∀ w ∈ ws, w.data ≠ []) (h : stopWordMatch r ws = some r2) :
    r2.length + 2 ≤ r.length := by
  induction ws with
  | nil => simp [stopWordMatch] at h
  | cons w ws ih =>
    rw [stopWordMatch] at h
    cases hc : consumeLit w.data r with
    | none =>
      simp only [hc] at h
      exact ih (fun u hu => hw u (List.mem_cons_of_mem _ hu)) h
    | some rw2 =>
      simp only [hc] at h
      cases ht : stopTailMatch rw2 stopTails with
      | none =>
        simp only [ht] at h
        exact ih (fun u hu => hw u (List.mem_cons_of_mem _ hu)) h
      | some r3 =>
        simp only [ht] at h
        have h2 : some r3 = some r2 := h
        cases h2
        have h1 := consumeLit_length hc
        have h2 := stopTailMatch_length stopTails ht
        have h3 : w.data ≠ [] := hw w (List.mem_cons_self _ _)
        have h4 : 1 ≤ w.data.length := by
          cases hd : w.data with
          | nil => exact absurd hd h3
          | cons _ _ => simp
        omega

/-- A full stop-pattern match consumes at least three characters. -/
theorem matchStop_length {s r : List Char} (h : matchStop s = some r) :
    r.length + 3 ≤ s.length := by
  cases s with
  | nil => simp [matchStop] at h
  | cons c rest =>
    rw [matchStop] at h
    split at h
    · have := stopWordMatch_length stopWords (by decide) h
      simp
      omega
    · cases h

/-- Whether the stop pattern matches at some position of the buffer. -/
def hasStopB : List Char → Bool
  | [] => false
  | c :: rest => (matchStop (c :: rest)).isSome || hasStopB rest

/-- One substitution pass never lengthens the buffer. -/
theorem gsub_stop_length_le (fuel : Nat) (s : List Char) :
    (gsub matchStop [' '] fuel s).length ≤ s.length := by
  induction fuel generalizing s with
  | zero => simp [gsub]
  | succ fuel ih =>
    cases s with
    | nil => simp [gsub]
    | cons c rest =>
      rw [gsub]
      cases hms : matchStop (c :: rest) with
      | none =>
        simp only [hms]
        have := ih rest
        simp
        omega
      | some r =>
        simp only [hms]
        have hlen := matchStop_length hms
        rw [if_pos (by simp at hlen ⊢; omega)]
        have := ih r
        simp at hlen ⊢
        omega

/-- With no match anywhere, one pass is the identity. -/
theorem gsub_stop_id (fuel : Nat) (s : List Char) (h : hasStopB s = false) :
    gsub matchStop [' '] fuel s = s := by
  induction fuel generalizing s with
  | zero => rfl
  | succ fuel ih =>
    cases s with
    | nil => rfl
    | cons c rest =>
      rw [hasStopB] at h
      simp only [Bool.or_eq_false_iff] at h
      rw [gsub]
      cases hms : matchStop (c :: rest) with
      | none =>
        simp only [hms]
        rw [ih rest h.2]
      | some r =>
        rw [hms] at h
        simp at h

/-- With a match somewhere and enough fuel, one pass strictly shortens the
buffer. -/
theorem gsub_stop_lt (fuel : Nat) (s : List Char) (hf : s.length ≤ fuel)
    (h : hasStopB s = true) :
    (gsub matchStop [' '] fuel s).length < s.length := by
  induction fuel generalizing s with
  | zero =>
    cases s with
    | nil => simp [hasStopB] at h
    | cons c rest => simp at hf
  | succ fuel ih =>
    cases s with
    | nil => simp [hasStopB] at h
    | cons c rest =>
      rw [gsub]
      cases hms : matchStop (c :: rest) with
      | none =>
        simp only [hms]
        rw [hasStopB, hms] at h
        simp only [Option.isSome_none, Bool.false_or] at h
        have := ih rest (by simp at hf; omega) h
        simp
        omega
      | some r =>
        simp only [hms]
        have hlen := matchStop_length hms
        rw [if_pos (by simp at hlen ⊢; omega)]
        have := gsub_stop_length_le fuel r
        simp at hlen ⊢
        omega

/-- One stop-word pass is the identity exactly when the pattern has no
match in the buffer. -/
theorem stopSub_fixed_iff (s : String) : stopSub s = s ↔ hasStopB s.data = false := by
  cases s with
  | mk l =>
    constructor
    · intro he
      by_contra hb
      rw [Bool.not_eq_false] at hb
      have hlt := gsub_stop_lt (l.length + 1) l (by omega) hb
      have hdata := congrArg String.data he
      have : (gsub matchStop [' '] (l.length + 1) l).length = l.length := by
        rw [show (gsub matchStop [' '] (l.length + 1) l) =
          (stopSub ⟨l⟩).data from rfl, hdata]
      omega
    · intro hb
      show (⟨gsub matchStop [' '] (l.length + 1) l⟩ : String) = ⟨l⟩
      rw [gsub_stop_id _ _ hb]

/-- C8 (counterexample): on the buffer `" TO TO TO TO "` the two mandated
passes of `_stop_list` produce `" TO "`, and a third application of the
stop-word substitution still changes the buffer (to `" "`): nested
stop-word runs lose only one layer per pass. -/
theorem C8_counterexample :
    (stop_list_step { initV concreteLib with text := " TO TO TO TO " }).text = " TO " ∧
    stopSub " TO " ≠ " TO " ∧ stopSub " TO " = " " := by
  refine ⟨by decide, by decide, by decide⟩

/-- C8 (amended): a third application of the stop-word substitution leaves
the two-pass output unchanged exactly when the stop pattern no longer
matches it — which can fail (see the counterexample); moreover every pass
either fixes the buffer or strictly shortens it, so repeated passes always
stabilize even though two need not suffice. -/
theorem C8_stop_idempotence (v : Vectorizer) :
    (stopSub ((stop_list_step v).text) = (stop_list_step v).text ↔
      hasStopB ((stop_list_step v).text).data = false) ∧
    (stopSub ((stop_list_step v).text) = (stop_list_step v).text ∨
      (stopSub ((stop_list_step v).text)).data.length <
        ((stop_list_step v).text).data.length) := by
  refine ⟨stopSub_fixed_iff _, ?_⟩
  by_cases hb : hasStopB ((stop_list_step v).text).data = false
  · exact Or.inl ((stopSub_fixed_iff _).2 hb)
  · refine Or.inr ?_
    rw [Bool.not_eq_false] at hb
    exact gsub_stop_lt _ _ (by omega) hb

/-! ### The window boundary law (C2) -/

/-- No boundary token lies strictly between positions `a` and `b`. -/
def boundary_free (tokens : List String) (a b : Nat) : Prop :=
  ∀ p, p < max a b → min a b < p → isBoundaryTok (tokens.getD p "") = false

instance boundary_free_dec (tokens : List String) (a b : Nat) :
    Decidable (boundary_free tokens a b) := by
  unfold boundary_free
  infer_instance

/-- The window boundary law for an anchor at `index` with window bounds
`se`, quantified over exactly the window features `_ngrams` emits: pre
unigrams are drawn from `[start, index)` (this includes the
`immediately_pre_window` source), pre skip-grams additionally read
`tokens[i-j]` (Python index semantics) under the source's guard
`index - j > start`, post unigrams are drawn from `[index+1, min(len, end))`
(including the `immediately_post_window` source), and post skip-grams
additionally read `tokens[i+j]` under the guard `i < end - j`.  The law
states that no such source token lies across a boundary token strictly
between it and the anchor. -/
def windowLawAt (tokens : List String) (index : Nat) (se : Nat × Nat) : Prop :=
  (∀ i, i < index → se.1 ≤ i → boundary_free tokens i index) ∧
  (∀ i, i < index → se.1 ≤ i →
    ∀ j, j ∈ ([1, 2, 3] : List Nat) → se.1 + j < index →
      boundary_free tokens (pyIdx tokens ((i : Int) - (j : Int))) index) ∧
  (∀ i, i < min tokens.length se.2 → index + 1 ≤ i →
    boundary_free tokens index i) ∧
  (∀ i, i < min tokens.length se.2 → index + 1 ≤ i →
    ∀ j, j ∈ ([1, 2, 3] : List Nat) → i + j < se.2 →
      boundary_free tokens index (i + j))

instance windowLawAt_dec (tokens : List String) (index : Nat) (se : Nat × Nat) :
    Decidable (windowLawAt tokens index se) := by
  unfold windowLawAt
  infer_instance

/-- The law as claimed, for whichever window `_get_window` returns (an
aborted call emits no features). -/
def windowLaw (tokens : List String) (index : Nat) : Prop :=
  ∀ se, get_window tokens index = some se → windowLawAt tokens index se

instance windowLaw_dec (tokens : List String) (index : Nat) :
    Decidable (windowLaw tokens index) :=
  match hgw : get_window tokens index with
  | none => isTrue (by
      intro se hse
      rw [hgw] at hse
      exact Option.noConfusion hse)
  | some se0 =>
    decidable_of_iff (windowLawAt tokens index se0)
      ⟨fun hp se hse => by
        rw [hgw] at hse
        cases hse
        exact hp,
       fun hall => hall se0 hgw⟩

/-- The amended per-window law: identical except that a pre skip-gram is
only covered when its lower index stays at or above the window start
(`start + j ≤ i`, i.e. `i - j ≥ start`); the source's guard tests `index`
instead of `i` and lets the lower index escape the window. -/
def windowLawAmendedAt (tokens : List String) (index : Nat) (se : Nat × Nat) : Prop :=
  (∀ i, i < index → se.1 ≤ i → boundary_free tokens i index) ∧
  (∀ i, i < index → se.1 ≤ i →
    ∀ j, j ∈ ([1, 2, 3] : List Nat) → se.1 + j < index → se.1 + j ≤ i →
      boundary_free tokens (pyIdx tokens ((i : Int) - (j : Int))) index) ∧
  (∀ i, i < min tokens.length se.2 → index + 1 ≤ i →
    boundary_free tokens index i) ∧
  (∀ i, i < min tokens.length se.2 → index + 1 ≤ i →
    ∀ j, j ∈ ([1, 2, 3] : List Nat) → i + j < se.2 →
      boundary_free tokens index (i + j))

instance windowLawAmendedAt_dec (tokens : List String) (index : Nat)
    (se : Nat × Nat) : Decidable (windowLawAmendedAt tokens index se) := by
  unfold windowLawAmendedAt
  infer_instance

/-- The amended law for whichever window `_get_window` returns. -/
def windowLawAmended (tokens : List String) (index : Nat) : Prop :=
  ∀ se, get_window tokens index = some se → windowLawAmendedAt tokens index se

instance windowLawAmended_dec (tokens : List String) (index : Nat) :
    Decidable (windowLawAmended tokens index) :=
  match hgw : get_window tokens index with
  | none => isTrue (by
      intro se hse
      rw [hgw] at hse
      exact Option.noConfusion hse)
  | some se0 =>
    decidable_of_iff (windowLawAmendedAt tokens index se0)
      ⟨fun hp se hse => by
        rw [hgw] at hse
        cases hse
        exact hp,
       fun hall => hall se0 hgw⟩

/-- C2 (counterexample): for the token list
`["W0", "PUNCTUATION", "W2", "W3", "W4", "TEST_INSTANCE", "W6"]` the anchor
at index 5 has window `(start, end) = (2, 7)`, and the emitted pre
skip-gram `pre_window=W0_W2` (allowed by the source's guard
`index - j > start`, which tests `index` instead of `i`) draws its source
token `W0` at position 0 from across the `PUNCTUATION` boundary at
position 1, which lies strictly between the anchor and that token — so the
claimed law fails. -/
theorem C2_counterexample :
    ¬ windowLaw ["W0", "PUNCTUATION", "W2", "W3", "W4", "TEST_INSTANCE", "W6"] 5 ∧
    "pre_window=W0_W2" ∈
      (ngrams_feats ["W0", "PUNCTUATION", "W2", "W3", "W4", "TEST_INSTANCE", "W6"]
        "EGFR").getD [] ∧
    isBoundaryTok (["W0", "PUNCTUATION", "W2", "W3", "W4",
      "TEST_INSTANCE", "W6"].getD 1 "") = true := by
  refine ⟨by decide, by decide, by decide⟩

/-- C2 (amended): when the candidate window is not clipped by the text
edges (so the anchor sits exactly at the window midpoint), no unigram,
`immediately_`-window, or post skip-gram feature crosses a boundary token
strictly between the anchor and its source tokens, and a pre skip-gram is
also safe whenever its lower index stays at or above the window start; only
pre skip-grams whose lower index escapes the window (possible because the
guard tests `index - j` rather than `i - j`) may cross. -/
theorem C2_window_law (tokens : List String) (index : Nat)
    (h1 : 10 ≤ index) (h2 : index + 10 ≤ tokens.length) :
    windowLawAmended tokens index := by
  intro se hgw
  have hL : min tokens.length (index + 10) - (index - 10) = 20 := by omega
  have hA : ∀ p, se.1 ≤ p → p < index → isBoundaryTok (tokens.getD p "") = false := by
    intro p hp1 hp2
    by_contra hbd
    rw [Bool.not_eq_false] at hbd
    have hws : index - 10 ≤ p := le_trans (get_window_start_ge_clip hgw) hp1
    have hbe : (index - 10) + (p - (index - 10)) = p := by omega
    have := get_window_start_ge (p - (index - 10))
      (by omega) (by omega) (by rw [hbe]; exact hbd) hgw
    omega
  have hB : ∀ p, index < p → p < se.2 → isBoundaryTok (tokens.getD p "") = false := by
    intro p hp1 hp2
    by_contra hbd
    rw [Bool.not_eq_false] at hbd
    have hclip := get_window_end_le_clip (by omega) hgw
    have hbe : (index - 10) + (p - (index - 10)) = p := by omega
    have := get_window_end_le (p - (index - 10))
      (by omega) (by omega) (by rw [hbe]; exact hbd) hgw
    omega
  refine ⟨?_, ?_, ?_, ?_⟩
  · intro i hi1 hi2 p hp1 hp2
    exact hA p (by omega) (by omega)
  · intro i hi1 hi2 j hj hj2 hj3
    have hji : j ≤ i := by
      fin_cases hj <;> omega
    have hpy : pyIdx tokens ((i : Int) - (j : Int)) = i - j := by
      rw [pyIdx, if_pos (by omega)]
      omega
    rw [hpy]
    intro p hp1 hp2
    exact hA p (by omega) (by omega)
  · intro i hi1 hi2 p hp1 hp2
    exact hB p (by omega) (by omega)
  · intro i hi1 hi2 j hj hj2 p hp1 hp2
    exact hB p (by omega) (by omega)

/-- C2 (witness): the amended law applied to an unclipped window containing
a boundary. -/
theorem C2_witness :
    windowLawAmended ["W0", "W1", "W2", "W3", "W4", "W5", "W6", "W7",
      "PUNCTUATION", "W9", "TEST_INSTANCE", "W11", "W12", "W13", "W14",
      "W15", "W16", "W17", "W18", "W19", "W20"] 10 :=
  C2_window_law _ 10 (by decide) (by decide)


/-! ### Context normalization and accession resolution (C4, C6) -/

/-- The per-call state at the start of the pipeline for text
`" EGFR EGFR "`, accession `"S171234"`, marker `"EGFR"` (the fields exactly
as `make_vector` resets them). -/
def egfrPairState : Vectorizer where
  lib := concreteLib
  accession := stripDashSpace "S171234"
  text := get_text " EGFR EGFR "
  marker := "EGFR"
  vector := []

/-- C4 (counterexample): with marker `EGFR` and text `" EGFR EGFR "`, the
mention-substitution step consumes only the first mention (the second one
loses its leading cushion to the first match), leaving the buffer
`" TEST_INSTANCE EGFR "`; the surviving `" EGFR "` is still a match of the
marker's own pattern (second conjunct), and the standardize sweep — which
substitutes every test pattern, not only the other markers' — rewrites it
to `OTHER_TEST`. -/
theorem C4_counterexample :
    (test_instance (positive_test (cytology_report egfrPairState))).text =
      " TEST_INSTANCE EGFR " ∧
    (mkCushionPattern "EGFR" "EGFR").subWith " X " " TEST_INSTANCE EGFR " =
      " TEST_INSTANCE X " ∧
    (standardize (test_instance (positive_test (cytology_report egfrPairState)))).text =
      " TEST_INSTANCE OTHER_TEST " := by
  refine ⟨by decide, by decide, by decide⟩

/-- C4 (amended): the standardize sweep does not read the requested marker
at all — it substitutes every test pattern of the library, the marker's own
included, so its output is identical for any two marker (and vector/
accession) fields; marker mentions normally escape only because the prior
mention-substitution step already consumed them, and a surviving adjacent
duplicate is rewritten to `OTHER_TEST` and then collapsed back into the
anchor by the `TEST_INSTANCE ... OTHER_TEST` substitution rule, as the
concrete run shows (that run then aborts inside `_get_window`, the buffer
having become the single anchor token, so `make_vector` itself never
returns on this input). -/
theorem C4_standardize_marker_blind :
    (∀ (lib : Library) (acc t m m2 : String) (vec vec2 : List String),
      (standardize ⟨lib, acc, t, m, vec⟩).text =
      (standardize ⟨lib, acc, t, m2, vec2⟩).text) ∧
    (substitute (insufficient (other_accession (standardize (test_instance
      (positive_test (cytology_report egfrPairState))))))).text = " TEST_INSTANCE " ∧
    make_vector (initV concreteLib) " EGFR EGFR " "S171234" "EGFR" = none := by
  refine ⟨fun lib acc t m m2 vec vec2 => rfl, by decide, rfl⟩

/-- C6 (counterexample): with normalized report accession `AA112233` and
text `" A11-2233 x AA11-2233 "` the scan finds two matches; the second one
normalizes to the report accession, yet the final buffer contains no
`THIS_ACC_NUM` at all: the first (other) match's literal `A11-2233` is a
substring of the second match's text, and its global string replacement
destroys the second match before its own substitution runs. -/
theorem C6_counterexample :
    accMatchGroups " A11-2233 x AA11-2233 " = ["A11-2233", "AA11-2233"] ∧
    stripAccChars "AA11-2233" = "AA112233" ∧
    accSubstitute "AA112233" " A11-2233 x AA11-2233 " =
      "  OTHER_ACC_NUM  x A OTHER_ACC_NUM  " ∧
    countSubStr (accSubstitute "AA112233" " A11-2233 x AA11-2233 ") "THIS_ACC_NUM" = 0 := by
  refine ⟨by decide, by decide, by decide, by decide⟩

/-- C6 (amended): each individual match is classified exactly by comparing
its punctuation/space-stripped value with the report's normalized accession,
and on non-interfering texts the spec's three examples hold: `"(S17-1234)"`
resolves to `THIS_ACC_NUM`, the value-equal `"S17 1234"` also resolves to
`THIS_ACC_NUM`, and a different accession-shaped substring resolves to
`OTHER_ACC_NUM`.  (Replacement is by literal string over the whole buffer,
so a match whose text contains an earlier match's literal can be clobbered
— see the counterexample.) -/
theorem C6_accession_resolution :
    (∀ accession g : String,
      (accLabel accession g = " THIS_ACC_NUM " ↔ stripAccChars g = accession) ∧
      (accLabel accession g = " OTHER_ACC_NUM " ↔ stripAccChars g ≠ accession)) ∧
    accSubstitute (stripDashSpace "S17-1234") " (S17-1234) " = "  THIS_ACC_NUM  " ∧
    accSubstitute (stripDashSpace "S17-1234") " S17 1234 " = "  THIS_ACC_NUM  " ∧
    accSubstitute (stripDashSpace "S17-1234") " (S17-9999) " = "  OTHER_ACC_NUM  " := by
  refine ⟨?_, by decide, by decide, by decide⟩
  intro accession g
  by_cases h : stripAccChars g = accession
  · rw [accLabel, if_pos h]
    constructor
    · exact ⟨fun _ => h, fun _ => rfl⟩
    · constructor
      · intro he
        exact absurd he (by decide)
      · intro hne
        exact absurd h hne
  · rw [accLabel, if_neg h]
    constructor
    · constructor
      · intro he
        exact absurd he.symm (by decide)
      · intro he
        exact absurd he h
    · exact ⟨fun _ => h, fun _ => rfl⟩

end EgfrAlk
